import Mathlib

/-!
# Verification of the AOSiP build-catalog Flask service (`src/app.py`)

Shallow embedding of `app.py` into Lean 4.  Python `dict`s are modelled as
insertion-ordered association lists with overwrite-in-place assignment,
fallible operations (`KeyError`, `IndexError`, date-parse `ValueError`)
return `Except Err`, and the two JSON input files (`devices.json`,
`builds.json`) are passed in as explicit parameters.  HTTP responses from
the upstream changelog host are passed in as explicit `(status, body)`
records.
-/

namespace BuildCatalog

/-- Python exceptions that the routes can raise (surfacing as a 500). -/
inductive Err where
  | keyError
  | indexError
  | valueError
  deriving Repr, DecidableEq

/-- One record of `devices.json`: `codename`, display `device` name, and the
optional `xda` / `maintainer` fields (absent keys modelled as `none`,
matching `dict.get`). -/
structure DeviceRec where
  codename : String
  device : String
  xda : Option String := none
  maintainer : Option String := none
  deriving Repr, DecidableEq

/-- One build record of `builds.json` (spec §3).  The optional boolean flags
default to `false`, matching the falsiness of an absent key under
`build.get(...)`. -/
structure Build where
  filename : String
  type : String
  version : String
  date : String
  sha256 : String
  filepath : String
  size : Nat
  fastboot_images : Bool := false
  boot_image : Bool := false
  deriving Repr, DecidableEq

/-- `builds.json`: a JSON object, i.e. an insertion-ordered map from device
codename to the ordered list of build records. -/
abbrev Manifest := List (String × List Build)

/-- Lookup in a JSON-object / Python-dict modelled as an association list
(first matching key wins; keys are unique in practice). -/
def lookupD (l : List (String × α)) (k : String) : Option α :=
  (l.find? (fun p => p.1 == k)).map (fun p => p.2)

/-- Python `k in d` membership test. -/
def hasKey (l : List (String × α)) (k : String) : Bool :=
  l.any (fun p => p.1 == k)

/-- Python `d[k] = v`: overwrite in place when the key is present (keys are
unique in a dict, so "the first occurrence" is "the occurrence"), append
otherwise (insertion-ordered dict semantics). -/
def dictSet : List (String × α) → String → α → List (String × α)
  | [], k, v => [(k, v)]
  | p :: t, k, v => if p.1 == k then (p.1, v) :: t else p :: dictSet t k v

/-- `ALLOWED_BUILDTYPES = ["official", "gapps"]` (app.py line 26). -/
def ALLOWED_BUILDTYPES : List String := ["official", "gapps"]

/-- `DOWNLOAD_BASE_URL` default (app.py line 29); the routes take it as a
parameter since it comes from the environment. -/
def DOWNLOAD_BASE_URL : String := "https://get.aosip.dev"

/-- `get_devices()` (app.py lines 32-39): dict comprehension
`{d['codename']: d['device'] for d in data}` — later duplicates overwrite. -/
def get_devices (data : List DeviceRec) : List (String × String) :=
  data.foldl (fun d r => dictSet d r.codename r.device) []

/-- `get_zips()` (app.py lines 42-49): all filenames, manifest order. -/
def get_zips (manifest : Manifest) : List String :=
  (manifest.map (fun p => p.2.map (fun b => b.filename))).flatten

/-! ## Date handling

`arrow.get(date).timestamp` in the OTA route is modelled for ISO
`YYYY-MM-DD` date strings (the manifest's `date` field format, spec §3):
parse, validate, and convert to a Unix timestamp via the standard
civil-from-days algorithm.  Any other string raises (`.error .valueError`),
like arrow's `ParserError`. -/

/-- Gregorian leap-year test. -/
def isLeap (y : Nat) : Bool :=
  (y % 4 == 0 && y % 100 != 0) || y % 400 == 0

/-- Days in a month of the proleptic Gregorian calendar. -/
def daysInMonth (y m : Nat) : Nat :=
  if m == 2 then (if isLeap y then 29 else 28)
  else if m == 4 || m == 6 || m == 9 || m == 11 then 30
  else 31

/-- Days from civil date to 1970-01-01 (Howard Hinnant's algorithm,
floor division). -/
def daysFromCivil (y m d : Int) : Int :=
  let y' := if m ≤ 2 then y - 1 else y
  let era := Int.fdiv y' 400
  let yoe := y' - era * 400
  let mp := if m ≤ 2 then m + 9 else m - 3
  let doy := Int.fdiv (153 * mp + 2) 5 + d - 1
  let doe := yoe * 365 + Int.fdiv yoe 4 - Int.fdiv yoe 100 + doy
  era * 146097 + doe - 719468

/-- Decimal value of a digit character. -/
def digitVal (c : Char) : Nat := c.toNat - 48

/-- Parse a list of digit characters as a decimal `Nat`. -/
def digitsToNat (l : List Char) : Nat :=
  l.foldl (fun acc c => acc * 10 + digitVal c) 0

/-- `arrow.get(s).timestamp` for an ISO `YYYY-MM-DD` string: seconds since
the Unix epoch at UTC midnight of that date; parse failure raises. -/
def arrow_timestamp (s : String) : Except Err Int :=
  match s.data with
  | [y1, y2, y3, y4, h1, m1, m2, h2, d1, d2] =>
    if h1 = '-' ∧ h2 = '-' ∧ [y1, y2, y3, y4, m1, m2, d1, d2].all Char.isDigit then
      let y := digitsToNat [y1, y2, y3, y4]
      let m := digitsToNat [m1, m2]
      let d := digitsToNat [d1, d2]
      if 1 ≤ y ∧ 1 ≤ m ∧ m ≤ 12 ∧ 1 ≤ d ∧ d ≤ daysInMonth y m then
        .ok (86400 * daysFromCivil (Int.ofNat y) (Int.ofNat m) (Int.ofNat d))
      else .error .valueError
    else .error .valueError
  | _ => .error .valueError

/-! ## The OTA endpoint (`/<device>/<romtype>`) -/

/-- `get_latest(device, romtype)` (app.py lines 52-62): returns `{}`
(modelled `none`) when the device is not a key of the device directory;
otherwise indexes `builds.json` by the device — an unguarded `[device]`
lookup that raises `KeyError` when absent — and returns the first build of
matching `type` (or `{}` when none matches). -/
def get_latest (devicesJson : List DeviceRec) (manifest : Manifest)
    (device romtype : String) : Except Err (Option Build) :=
  if hasKey (get_devices devicesJson) device then
    match lookupD manifest device with
    | none => .error .keyError
    | some builds => .ok (builds.find? (fun b => b.type == romtype))
  else
    .ok none

/-- One element of the OTA JSON `response` array (app.py lines 150-162). -/
structure OtaEntry where
  id : String
  url : String
  romtype : String
  datetime : Int
  version : String
  filename : String
  size : Nat
  deriving Repr, DecidableEq

/-- The `ota` route (app.py lines 144-163): `jsonify({'response': data})`,
modelled as the `response` array itself. -/
def ota (devicesJson : List DeviceRec) (manifest : Manifest)
    (download_base_url device romtype : String) : Except Err (List OtaEntry) := do
  let rom ← get_latest devicesJson manifest device romtype
  match rom with
  | none => pure []
  | some rom => do
    let ts ← arrow_timestamp rom.date
    pure [{ id := rom.sha256
            url := download_base_url ++ rom.filepath ++ rom.filename
            romtype := rom.type
            datetime := ts
            version := rom.version
            filename := rom.filename
            size := rom.size }]

/-! ## Basic monad and dictionary lemmas -/

theorem exceptPure {α : Type} (a : α) :
    (pure a : Except Err α) = Except.ok a := rfl

theorem exceptBind_ok {α β : Type} (a : α) (f : α → Except Err β) :
    ((Except.ok a : Except Err α) >>= f) = f a := rfl

theorem exceptBind_error {α β : Type} (e : Err) (f : α → Except Err β) :
    ((Except.error e : Except Err α) >>= f) = Except.error e := rfl

theorem exceptMap_ok {α β : Type} (f : α → β) (a : α) :
    (f <$> (Except.ok a : Except Err α)) = Except.ok (f a) := rfl

theorem hasKey_nil (k : String) : hasKey ([] : List (String × α)) k = false := rfl

theorem hasKey_append (l₁ l₂ : List (String × α)) (k : String) :
    hasKey (l₁ ++ l₂) k = (hasKey l₁ k || hasKey l₂ k) := by
  simp [hasKey, List.any_append]

theorem hasKey_dictSet (l : List (String × α)) (k k' : String) (v : α) :
    hasKey (dictSet l k v) k' = (hasKey l k' || k == k') := by
  induction l with
  | nil => simp [dictSet, hasKey, Bool.or_comm]
  | cons p t ih =>
    simp only [dictSet]
    cases hp : p.1 == k
    · simp only [Bool.false_eq_true, if_false, hasKey, List.any_cons]
      simp only [hasKey] at ih
      rw [ih]
      cases p.1 == k' <;> simp
    · have hpk : p.1 = k := by simpa using hp
      simp only [if_true, hasKey, List.any_cons, hpk]
      cases h1 : k == k' <;> simp [h1]

theorem lookupD_dictSet_self (l : List (String × α)) (k : String) (v : α) :
    lookupD (dictSet l k v) k = some v := by
  induction l with
  | nil => simp [dictSet, lookupD]
  | cons p t ih =>
    simp only [dictSet]
    cases hp : p.1 == k
    · simpa [lookupD, List.find?_cons, hp] using ih
    · simp [lookupD, List.find?_cons, hp]

theorem lookupD_dictSet_ne (l : List (String × α)) (k k' : String) (v : α)
    (h : k' ≠ k) : lookupD (dictSet l k v) k' = lookupD l k' := by
  induction l with
  | nil =>
    have hne : (k == k') = false := by simpa using fun hh => h hh.symm
    simp [dictSet, lookupD, hne]
  | cons p t ih =>
    simp only [dictSet]
    cases hp : p.1 == k
    · cases hpk' : p.1 == k'
      · simpa [lookupD, List.find?_cons, hpk'] using ih
      · simp [lookupD, List.find?_cons, hpk']
    · have hne : (p.1 == k') = false := by
        have hpk : p.1 = k := by simpa using hp
        subst hpk
        simpa using fun hh => h hh.symm
      simp [lookupD, List.find?_cons, hne]

theorem lookupD_nil (k : String) : lookupD ([] : List (String × α)) k = none := rfl

theorem hasKey_get_devices (data : List DeviceRec) (c : String) :
    hasKey (get_devices data) c = data.any (fun r => r.codename == c) := by
  unfold get_devices
  suffices h : ∀ (d : List (String × String)),
      hasKey (data.foldl (fun d r => dictSet d r.codename r.device) d) c
        = (hasKey d c || data.any (fun r => r.codename == c)) by
    simpa using h []
  induction data with
  | nil => simp
  | cons r t ih =>
    intro d
    simp only [List.foldl_cons, List.any_cons]
    rw [ih]
    rw [hasKey_dictSet]
    cases hasKey d c <;> cases hr : r.codename == c <;> simp

/-- First-match extraction: `find?` over `pre ++ b :: post` where nothing in
`pre` matches. -/
theorem find?_first {α : Type} (p : α → Bool) (pre post : List α) (b : α)
    (hpre : ∀ x ∈ pre, p x = false) (hb : p b = true) :
    (pre ++ b :: post).find? p = some b := by
  induction pre with
  | nil => simp [List.find?_cons, hb]
  | cons x t ih =>
    have hx := hpre x (by simp)
    simp only [List.cons_append, List.find?_cons, hx]
    exact ih (fun y hy => hpre y (by simp [hy]))

/-! ## Concrete demonstration data (a device directory and manifest used by
the witness theorems) -/

def demoDevices : List DeviceRec :=
  [{ codename := "bullhead", device := "Nexus 5X" }]

def demoGapps : Build :=
  { filename := "GApps-10-full-bullhead-20200101.zip", type := "gapps",
    version := "10", date := "2020-01-01", sha256 := "aaa",
    filepath := "/bullhead/", size := 100 }

def demoOfficial1 : Build :=
  { filename := "AOSiP-10-Official-bullhead-20200102.zip", type := "official",
    version := "10", date := "2020-01-02", sha256 := "bbb",
    filepath := "/bullhead/", size := 200 }

def demoOfficial2 : Build :=
  { filename := "AOSiP-10-Official-bullhead-20200301.zip", type := "official",
    version := "10", date := "2020-03-01", sha256 := "ccc",
    filepath := "/bullhead/", size := 300,
    fastboot_images := true, boot_image := true }

def demoManifest : Manifest :=
  [("bullhead", [demoGapps, demoOfficial1, demoOfficial2])]

/-! ## Claims C1-C3: the OTA JSON endpoint -/

/-- C1: when the device is in the device directory and its build list has a
build of the requested romtype, `GET /<device>/<romtype>` returns
`{"response": [r]}` with exactly one element built from the FIRST build in
manifest order whose type equals romtype; `r.id` is the sha256, `r.url` is
the bare concatenation `DOWNLOAD_BASE_URL + filepath + filename`,
`r.romtype` its type, `r.datetime` the unix timestamp parsed from `date`,
and `version`/`filename`/`size` copied from the build record. -/
theorem c1_ota_returns_first_match (devicesJson : List DeviceRec)
    (manifest : Manifest) (base device romtype : String)
    (pre post : List Build) (b : Build) (ts : Int)
    (hdev : hasKey (get_devices devicesJson) device = true)
    (hblds : lookupD manifest device = some (pre ++ b :: post))
    (hpre : ∀ x ∈ pre, x.type ≠ romtype)
    (hb : b.type = romtype)
    (hts : arrow_timestamp b.date = .ok ts) :
    ota devicesJson manifest base device romtype =
      .ok [{ id := b.sha256
             url := base ++ b.filepath ++ b.filename
             romtype := b.type
             datetime := ts
             version := b.version
             filename := b.filename
             size := b.size }] := by
  have hfind : (pre ++ b :: post).find? (fun x => x.type == romtype) = some b :=
    find?_first _ pre post b
      (fun x hx => by simpa using hpre x hx) (by simpa using hb)
  simp [ota, get_latest, hdev, hblds, hfind, hts, exceptBind_ok, exceptMap_ok]

/-- Witness for C1 on concrete data: the gapps build is skipped, and of the
two official builds the FIRST one (dated 2020-01-02, not the later
2020-03-01 build) is returned, with the url a bare concatenation. -/
theorem c1_witness :
    ota demoDevices demoManifest DOWNLOAD_BASE_URL "bullhead" "official" =
      .ok [{ id := "bbb"
             url := "https://get.aosip.dev/bullhead/AOSiP-10-Official-bullhead-20200102.zip"
             romtype := "official"
             datetime := 1577923200
             version := "10"
             filename := "AOSiP-10-Official-bullhead-20200102.zip"
             size := 200 }] :=
  c1_ota_returns_first_match demoDevices demoManifest DOWNLOAD_BASE_URL
    "bullhead" "official" [demoGapps] [demoOfficial2] demoOfficial1 1577923200
    rfl rfl (by decide) rfl rfl

/-- C2: when the device is absent from the device directory, or its build
list has no build of the requested romtype, `GET /<device>/<romtype>`
returns exactly `{"response": []}` — an empty array, not an error. -/
theorem c2_ota_empty_response (devicesJson : List DeviceRec)
    (manifest : Manifest) (base device romtype : String)
    (h : hasKey (get_devices devicesJson) device = false ∨
         ∃ builds, lookupD manifest device = some builds ∧
           ∀ b ∈ builds, b.type ≠ romtype) :
    ota devicesJson manifest base device romtype = .ok [] := by
  rcases h with h | ⟨builds, hblds, hnone⟩
  · simp [ota, get_latest, h, exceptBind_ok, exceptPure]
  · by_cases hdev : hasKey (get_devices devicesJson) device = true
    · have hfind : builds.find? (fun b => b.type == romtype) = none := by
        rw [List.find?_eq_none]
        intro x hx
        simpa using hnone x hx
      simp [ota, get_latest, hdev, hblds, hfind, exceptBind_ok, exceptPure]
    · have hdev' : hasKey (get_devices devicesJson) device = false := by
        simpa using hdev
      simp [ota, get_latest, hdev', exceptBind_ok, exceptPure]

/-- Witness for C2: both branches on concrete data — an unknown device, and
a known device whose build list has no build of the requested type. -/
theorem c2_witness :
    ota demoDevices demoManifest DOWNLOAD_BASE_URL "ghost" "official" = .ok [] ∧
    ota demoDevices demoManifest DOWNLOAD_BASE_URL "bullhead" "beta" = .ok [] :=
  ⟨c2_ota_empty_response demoDevices demoManifest DOWNLOAD_BASE_URL "ghost"
      "official" (.inl rfl),
   c2_ota_empty_response demoDevices demoManifest DOWNLOAD_BASE_URL "bullhead"
      "beta" (.inr ⟨[demoGapps, demoOfficial1, demoOfficial2], rfl, by decide⟩)⟩

/-- C3: a device present in the device directory but absent from the build
manifest does NOT get `{"response": []}`: the unguarded `[device]` lookup
into the parsed manifest raises an uncaught `KeyError` (server error),
because `get_latest` validates only against the device directory. -/
theorem c3_ota_keyerror (devicesJson : List DeviceRec) (manifest : Manifest)
    (base device romtype : String)
    (hdev : hasKey (get_devices devicesJson) device = true)
    (hmiss : lookupD manifest device = none) :
    ota devicesJson manifest base device romtype = .error .keyError ∧
    ota devicesJson manifest base device romtype ≠ .ok [] := by
  have h : ota devicesJson manifest base device romtype = .error .keyError := by
    simp [ota, get_latest, hdev, hmiss, exceptBind_error]
  exact ⟨h, by simp [h]⟩

/-- Witness for C3: `bullhead` is in the device directory but the manifest
has no `bullhead` key, so the OTA route raises `KeyError`. -/
theorem c3_witness :
    ota demoDevices [] DOWNLOAD_BASE_URL "bullhead" "official" =
        .error .keyError ∧
    ota demoDevices [] DOWNLOAD_BASE_URL "bullhead" "official" ≠ .ok [] :=
  c3_ota_keyerror demoDevices [] DOWNLOAD_BASE_URL "bullhead" "official"
    rfl rfl

/-! ## The device page (`/<target_device>`, app.py lines 95-141) -/

/-- Python `str.replace`, structurally recursive on the subject: scan left
to right, replacing each non-overlapping occurrence of `pat`.  When `pat`
matches at the head, `skip` counts the remaining matched characters to
drop.  Faithful for non-empty patterns (the source only ever replaces
`".zip"`). -/
def pyReplaceGo (pat rep : List Char) : Nat → List Char → List Char
  | _, [] => []
  | skip+1, _ :: rest => pyReplaceGo pat rep skip rest
  | 0, c :: rest =>
    if pat.isPrefixOf (c :: rest) then
      rep ++ pyReplaceGo pat rep (pat.length - 1) rest
    else
      c :: pyReplaceGo pat rep 0 rest

/-- Python `s.replace(pat, rep)` on strings. -/
def pyReplace (s pat rep : String) : String :=
  ⟨pyReplaceGo pat.data rep.data 0 s.data⟩

/-- The body of the `for build in json_data[target_device]` loop (app.py
lines 107-118): one build's contribution to `available_files`. -/
def addBuild (d : List (String × String)) (b : Build) : List (String × String) :=
  if ALLOWED_BUILDTYPES.contains b.type then
    let d := dictSet d b.type b.filename
    let d := if b.fastboot_images then
        dictSet d (b.type ++ "-img") (pyReplace b.filename ".zip" "-img.zip")
      else d
    if b.boot_image then
      dictSet d (b.type ++ "-boot") (pyReplace b.filename ".zip" "-boot.img")
    else d
  else d

/-- The `available_files` dict accumulated over the device's build list. -/
def available_files (builds : List Build) : List (String × String) :=
  builds.foldl addBuild []

/-- The possible results of the `latest_device` view: the plain "no build"
string, a rendered `device.html` page, or Python's implicit `None` when the
function falls off the end (`available_files` empty). -/
inductive DevicePage where
  | noBuilds (msg : String)
  | page (files : List (String × String)) (device model : String)
      (xda maintainer : Option String)
  | implicitNone
  deriving Repr, DecidableEq

/-- `latest_device(target_device)` (app.py lines 95-141). -/
def latest_device (manifest : Manifest) (devicesJson : List DeviceRec)
    (target_device : String) : DevicePage :=
  match lookupD manifest target_device with
  | none =>
    .noBuilds ("There isn't any build for " ++ target_device ++
      " available here!")
  | some builds =>
    let files := available_files builds
    let info :=
      match devicesJson.find? (fun d => d.codename == target_device) with
      | some d => (d.device, d.xda, d.maintainer)
      | none => (target_device, (none : Option String), (none : Option String))
    if files.isEmpty then .implicitNone
    else .page files target_device info.1 info.2.1 info.2.2

/-! ## Lemmas about `available_files` -/

theorem hasKey_addBuild_mono (d : List (String × String)) (b : Build)
    (k : String) (h : hasKey d k = true) : hasKey (addBuild d b) k = true := by
  unfold addBuild
  split
  · split <;> split <;> simp [hasKey_dictSet, h]
  · exact h

theorem hasKey_foldl_addBuild_mono (builds : List Build)
    (d : List (String × String)) (k : String) (h : hasKey d k = true) :
    hasKey (builds.foldl addBuild d) k = true := by
  induction builds generalizing d with
  | nil => exact h
  | cons b bs ih => exact ih (addBuild d b) (hasKey_addBuild_mono d b k h)

theorem addBuild_sets_keys (d : List (String × String)) (b : Build)
    (hc : ALLOWED_BUILDTYPES.contains b.type = true) :
    hasKey (addBuild d b) b.type = true ∧
    (b.fastboot_images = true → hasKey (addBuild d b) (b.type ++ "-img") = true) ∧
    (b.boot_image = true → hasKey (addBuild d b) (b.type ++ "-boot") = true) := by
  unfold addBuild
  rw [hc]
  simp only [if_true]
  refine ⟨?_, ?_, ?_⟩
  · cases hf : b.fastboot_images <;> cases hb : b.boot_image <;>
      simp [hasKey_dictSet]
  · intro hf
    cases hb : b.boot_image <;> simp [hf, hasKey_dictSet]
  · intro hb
    simp [hb, hasKey_dictSet]

/-- Keys `<allowed>-img` / `<allowed>-boot` never collide with an allowed
plain type key. -/
theorem suffix_keys_ne (t bt : String) (ht : t ∈ ALLOWED_BUILDTYPES)
    (hbt : bt ∈ ALLOWED_BUILDTYPES) :
    (bt ++ "-img") ≠ t ∧ (bt ++ "-boot") ≠ t := by
  have ht' : t = "official" ∨ t = "gapps" := by
    simpa [ALLOWED_BUILDTYPES] using ht
  have hbt' : bt = "official" ∨ bt = "gapps" := by
    simpa [ALLOWED_BUILDTYPES] using hbt
  rcases ht' with h | h <;> rcases hbt' with h2 | h2 <;> subst h <;> subst h2 <;>
    exact ⟨by decide, by decide⟩

/-- The value of an allowed plain type key after one `addBuild` step. -/
theorem addBuild_lookup (d : List (String × String)) (b : Build) (t : String)
    (ht : t ∈ ALLOWED_BUILDTYPES) :
    lookupD (addBuild d b) t =
      if b.type == t then some b.filename else lookupD d t := by
  by_cases hbt : b.type = t
  · subst hbt
    have hc : ALLOWED_BUILDTYPES.contains b.type = true := by
      have hm : b.type = "official" ∨ b.type = "gapps" := by
        simpa [ALLOWED_BUILDTYPES] using ht
      rcases hm with h | h <;> rw [h] <;> decide
    have hne := suffix_keys_ne b.type b.type ht ht
    unfold addBuild
    rw [hc]
    simp only [if_true, beq_self_eq_true]
    cases hf : b.fastboot_images <;> cases hbi : b.boot_image <;>
      simp [lookupD_dictSet_self, lookupD_dictSet_ne _ _ _ _ (fun h => hne.1 h.symm),
        lookupD_dictSet_ne _ _ _ _ (fun h => hne.2 h.symm)]
  · have hne : (b.type == t) = false := by simpa using hbt
    rw [hne]
    simp only [Bool.false_eq_true, if_false]
    unfold addBuild
    by_cases hc : ALLOWED_BUILDTYPES.contains b.type = true
    · have hc2 : ALLOWED_BUILDTYPES.elem b.type = true := hc
      have hbtm : b.type ∈ ALLOWED_BUILDTYPES := List.mem_of_elem_eq_true hc2
      have hsuf := suffix_keys_ne t b.type ht hbtm
      rw [hc]
      simp only [if_true]
      cases hf : b.fastboot_images <;> cases hbi : b.boot_image <;>
        simp [lookupD_dictSet_ne _ _ _ _ (fun h => hbt h.symm),
          lookupD_dictSet_ne _ _ _ _ (fun h => hsuf.1 h.symm),
          lookupD_dictSet_ne _ _ _ _ (fun h => hsuf.2 h.symm)]
    · have hc' : ALLOWED_BUILDTYPES.contains b.type = false := by
        simpa using hc
      rw [hc']
      simp

theorem getLast?_cons_of_ne_nil {α : Type} (a : α) (l : List α) (h : l ≠ []) :
    (a :: l).getLast? = l.getLast? := by
  cases l with
  | nil => exact absurd rfl h
  | cons x t => exact List.getLast?_cons_cons

/-- The last build of an allowed type in manifest order wins in
`available_files`. -/
theorem foldl_addBuild_lookup (builds : List Build)
    (d : List (String × String)) (t : String) (ht : t ∈ ALLOWED_BUILDTYPES) :
    lookupD (builds.foldl addBuild d) t =
      (((builds.filter (fun b => b.type == t)).getLast?).map
        (fun b => b.filename)).or (lookupD d t) := by
  induction builds generalizing d with
  | nil => simp
  | cons b bs ih =>
    rw [List.foldl_cons, ih (addBuild d b), addBuild_lookup d b t ht]
    cases hbt : b.type == t
    · simp only [List.filter_cons, hbt, Bool.false_eq_true, if_false]
    · simp only [List.filter_cons, hbt, if_true]
      rcases hlast : (bs.filter (fun b => b.type == t)).getLast? with _ | x
      · have hnil : bs.filter (fun b => b.type == t) = [] := by
          simpa [List.getLast?_eq_none_iff] using hlast
        simp [hnil]
      · have hne : bs.filter (fun b => b.type == t) ≠ [] := by
          intro hn
          rw [hn] at hlast
          simp at hlast
        rw [getLast?_cons_of_ne_nil b _ hne, hlast]
        simp

/-- `find?` returns the head of the filtered list. -/
theorem find?_eq_head?_filter {α : Type} (p : α → Bool) (l : List α) :
    l.find? p = (l.filter p).head? := by
  induction l with
  | nil => rfl
  | cons a t ih =>
    cases h : p a
    · simp only [List.find?_cons, List.filter_cons, h, Bool.false_eq_true,
        if_false]
      exact ih
    · simp only [List.find?_cons, List.filter_cons, h, if_true, List.head?_cons]

/-! ## Claims C4, C5, C10: the device page -/

/-- C4: every build of an allow-listed type contributes its key `type` to
`available_files`; with `fastboot_images` set it also contributes
`type+"-img"`, with `boot_image` set also `type+"-boot"`; and a single
build with `type="official"` and both flags yields exactly the three keys
`official`, `official-img`, `official-boot` with suffix-substituted
filenames. -/
theorem c4_available_files_keys (builds : List Build) (b : Build)
    (hmem : b ∈ builds) (ht : b.type ∈ ALLOWED_BUILDTYPES) :
    hasKey (available_files builds) b.type = true
    ∧ (b.fastboot_images = true →
        hasKey (available_files builds) (b.type ++ "-img") = true)
    ∧ (b.boot_image = true →
        hasKey (available_files builds) (b.type ++ "-boot") = true)
    ∧ (∀ b' : Build, b'.type = "official" → b'.fastboot_images = true →
        b'.boot_image = true →
        available_files [b'] =
          [("official", b'.filename),
           ("official-img", pyReplace b'.filename ".zip" "-img.zip"),
           ("official-boot", pyReplace b'.filename ".zip" "-boot.img")]) := by
  have hc : ALLOWED_BUILDTYPES.contains b.type = true := by
    have hm : b.type = "official" ∨ b.type = "gapps" := by
      simpa [ALLOWED_BUILDTYPES] using ht
    rcases hm with h | h <;> rw [h] <;> decide
  have main : ∀ (bs : List Build) (d : List (String × String)), b ∈ bs →
      hasKey (bs.foldl addBuild d) b.type = true
      ∧ (b.fastboot_images = true →
          hasKey (bs.foldl addBuild d) (b.type ++ "-img") = true)
      ∧ (b.boot_image = true →
          hasKey (bs.foldl addBuild d) (b.type ++ "-boot") = true) := by
    intro bs
    induction bs with
    | nil => intro d h; simp at h
    | cons x xs ih =>
      intro d hmem'
      rcases List.mem_cons.mp hmem' with hx | hx
      · subst hx
        have hk := addBuild_sets_keys d b hc
        refine ⟨hasKey_foldl_addBuild_mono xs _ _ hk.1, ?_, ?_⟩
        · intro hf
          exact hasKey_foldl_addBuild_mono xs _ _ (hk.2.1 hf)
        · intro hb
          exact hasKey_foldl_addBuild_mono xs _ _ (hk.2.2 hb)
      · exact ih (addBuild d x) hx
  have hsingle : ∀ b' : Build, b'.type = "official" → b'.fastboot_images = true →
      b'.boot_image = true →
      available_files [b'] =
        [("official", b'.filename),
         ("official-img", pyReplace b'.filename ".zip" "-img.zip"),
         ("official-boot", pyReplace b'.filename ".zip" "-boot.img")] := by
    intro b' h1 h2 h3
    simp only [available_files, List.foldl_cons, List.foldl_nil, addBuild,
      h1, h2, h3]
    rfl
  exact ⟨(main builds [] hmem).1, (main builds [] hmem).2.1,
    (main builds [] hmem).2.2, hsingle⟩

/-- Witness for C4: the three keys are present for the flagged official
build of the demo manifest, and the singleton case yields exactly the three
suffix-substituted entries. -/
theorem c4_witness :
    (hasKey (available_files [demoGapps, demoOfficial1, demoOfficial2])
        "official" = true
      ∧ hasKey (available_files [demoGapps, demoOfficial1, demoOfficial2])
          "official-img" = true
      ∧ hasKey (available_files [demoGapps, demoOfficial1, demoOfficial2])
          "official-boot" = true)
    ∧ available_files [demoOfficial2] =
        [("official", "AOSiP-10-Official-bullhead-20200301.zip"),
         ("official-img", "AOSiP-10-Official-bullhead-20200301-img.zip"),
         ("official-boot", "AOSiP-10-Official-bullhead-20200301-boot.img")] := by
  have h := c4_available_files_keys [demoGapps, demoOfficial1, demoOfficial2]
    demoOfficial2 (by decide) (by decide)
  refine ⟨⟨h.1, h.2.1 rfl, h.2.2.1 rfl⟩, ?_⟩
  rw [h.2.2.2 demoOfficial2 rfl rfl rfl]
  rfl

/-- C5 counterexample: with the device present in the manifest but no build
of an allow-listed type, the view does NOT render the device page with an
empty file map (as the claim states); it falls off the end of the function
and returns Python `None`. -/
theorem c5_counterexample :
    latest_device
        [("bullhead",
          [{ filename := "AOSiP-10-Beta-bullhead-20200101.zip",
             type := "beta", version := "10", date := "2020-01-01",
             sha256 := "ddd", filepath := "/bullhead/", size := 100 }])]
        demoDevices "bullhead" = .implicitNone ∧
    latest_device
        [("bullhead",
          [{ filename := "AOSiP-10-Beta-bullhead-20200101.zip",
             type := "beta", version := "10", date := "2020-01-01",
             sha256 := "ddd", filepath := "/bullhead/", size := 100 }])]
        demoDevices "bullhead" ≠ .page [] "bullhead" "Nexus 5X" none none := by
  exact ⟨by decide, by decide⟩

/-- C5 (amended): when the device is present in the build manifest but none
of its builds has a type in the allow-list, the view returns no response at
all — it falls off the end and returns Python `None` (`implicitNone`) — not
the "no build available" string and not a rendered page. -/
theorem c5_no_allowed_builds_returns_none (manifest : Manifest)
    (devicesJson : List DeviceRec) (target : String) (builds : List Build)
    (hb : lookupD manifest target = some builds)
    (hnone : ∀ b ∈ builds, b.type ∉ ALLOWED_BUILDTYPES) :
    latest_device manifest devicesJson target = .implicitNone := by
  have hfiles : available_files builds = [] := by
    unfold available_files
    have : ∀ bs : List Build, (∀ b ∈ bs, b.type ∉ ALLOWED_BUILDTYPES) →
        bs.foldl addBuild [] = [] := by
      intro bs
      induction bs with
      | nil => intro _; rfl
      | cons x xs ih =>
        intro h
        have hx : ALLOWED_BUILDTYPES.contains x.type = false := by
          have := h x (by simp)
          simpa [ALLOWED_BUILDTYPES] using this
        rw [List.foldl_cons]
        rw [show addBuild [] x = [] by unfold addBuild; rw [hx]; simp]
        exact ih (fun b hb => h b (by simp [hb]))
    exact this builds hnone
  unfold latest_device
  rw [hb]
  simp [hfiles]

/-- Witness for C5's amended theorem at the counterexample input. -/
theorem c5_witness :
    latest_device
        [("bullhead",
          [{ filename := "AOSiP-10-Beta-bullhead-20200101.zip",
             type := "beta", version := "10", date := "2020-01-01",
             sha256 := "ddd", filepath := "/bullhead/", size := 100 }])]
        demoDevices "bullhead" = .implicitNone :=
  c5_no_allowed_builds_returns_none _ demoDevices "bullhead" _ rfl (by decide)

/-- C10: with several builds of the same allow-listed type, the device
page's `available_files` holds the filename of the LAST such build in
manifest order (later dict writes overwrite earlier ones), while the OTA
route's `get_latest` returns the FIRST matching build. -/
theorem c10_last_write_wins (builds : List Build) (t : String)
    (ht : t ∈ ALLOWED_BUILDTYPES) :
    lookupD (available_files builds) t =
      ((builds.filter (fun b => b.type == t)).getLast?).map (fun b => b.filename)
    ∧ ∀ (devicesJson : List DeviceRec) (manifest : Manifest) (device : String),
        hasKey (get_devices devicesJson) device = true →
        lookupD manifest device = some builds →
        get_latest devicesJson manifest device t =
          .ok ((builds.filter (fun b => b.type == t)).head?) := by
  constructor
  · rw [available_files, foldl_addBuild_lookup builds [] t ht]
    simp [lookupD_nil]
  · intro devicesJson manifest device hdev hblds
    simp only [get_latest, hdev, if_true, hblds]
    rw [find?_eq_head?_filter]

/-- Witness for C10 on the demo manifest: `available_files` holds the
2020-03-01 official build's filename (the last in manifest order), while
`get_latest` returns the 2020-01-02 one (the first). -/
theorem c10_witness :
    lookupD (available_files [demoGapps, demoOfficial1, demoOfficial2])
        "official" = some "AOSiP-10-Official-bullhead-20200301.zip"
    ∧ get_latest demoDevices demoManifest "bullhead" "official" =
        .ok (some demoOfficial1) := by
  have h := c10_last_write_wins [demoGapps, demoOfficial1, demoOfficial2]
    "official" (by decide)
  exact ⟨by rw [h.1]; rfl,
    by rw [h.2 demoDevices demoManifest "bullhead" rfl rfl]; rfl⟩

/-! ## The changelog routes (app.py lines 166-194)

The upstream fetches are modelled by passing the received HTTP responses as
explicit arguments. -/

/-- A `requests` response: status code and body text. -/
structure HttpResponse where
  status_code : Nat
  text : String
  deriving Repr, DecidableEq

/-- `changelog_device(device)` (app.py lines 178-194): takes the response of
the global-changelog fetch (whose status is never inspected) and the
response of the per-device fetch; on a non-200 per-device status returns
the plain failure string, otherwise the concatenation with newlines
replaced by `<br>`. -/
def changelog_device (device : String) (globalResp deviceResp : HttpResponse) :
    String :=
  if deviceResp.status_code ≠ 200 then
    "Fetching changelog for " ++ device ++ " failed!"
  else
    pyReplace (globalResp.text ++ "\n" ++ deviceResp.text) "\n" "<br>"

/-- C9: the global changelog is fetched with no status check — the result
depends only on its body, so a non-200 global body is silently incorporated;
a non-200 per-device fetch yields the plain failure string (discarding the
global body); otherwise the output is global + newline + per-device with
every newline replaced by `<br>`. -/
theorem c9_changelog_device_behavior (device : String)
    (g g' d : HttpResponse) :
    (d.status_code ≠ 200 →
      changelog_device device g d =
        "Fetching changelog for " ++ device ++ " failed!")
    ∧ (d.status_code = 200 →
      changelog_device device g d =
        pyReplace (g.text ++ "\n" ++ d.text) "\n" "<br>")
    ∧ (g.text = g'.text →
      changelog_device device g d = changelog_device device g' d) := by
  refine ⟨?_, ?_, ?_⟩
  · intro h
    rw [changelog_device, if_pos h]
  · intro h
    rw [changelog_device, if_neg (by simp [h])]
  · intro h
    rw [changelog_device, changelog_device, h]

/-- Witness for C9: a failing (status 500) global fetch is silently
incorporated when the per-device fetch succeeds, and a 404 per-device fetch
yields the failure string. -/
theorem c9_witness :
    changelog_device "bullhead" ⟨500, "global error page"⟩ ⟨200, "dev\nnotes"⟩ =
      "global error page<br>dev<br>notes"
    ∧ changelog_device "bullhead" ⟨200, "global"⟩ ⟨404, "nope"⟩ =
      "Fetching changelog for bullhead failed!" :=
  ⟨by
    rw [(c9_changelog_device_behavior "bullhead" ⟨500, "global error page"⟩
      ⟨500, "global error page"⟩ ⟨200, "dev\nnotes"⟩).2.1 rfl]
    rfl,
   (c9_changelog_device_behavior "bullhead" ⟨200, "global"⟩ ⟨200, "global"⟩
      ⟨404, "nope"⟩).1 (by decide)⟩

/-! ## The index route (`/`, app.py lines 70-92): filename parsing -/

/-- Index of the last `'.'` in a character list (Python `str.rfind('.')`). -/
def rfindDot : List Char → Option Nat
  | [] => none
  | c :: cs =>
    match rfindDot cs with
    | some i => some (i + 1)
    | none => if c = '.' then some 0 else none

/-- `os.path.splitext(p)[0]` for a bare filename (no path separators): cut
at the last dot, unless every character before it is itself a dot (CPython
`genericpath._splitext`). -/
def splitextRoot (l : List Char) : List Char :=
  match rfindDot l with
  | none => l
  | some i => if (l.take i).any (fun c => c != '.') then l.take i else l

/-- Python `str.split(sep)` for a one-character separator: always returns
at least one (possibly empty) field. -/
def splitChar (sep : Char) : List Char → List (List Char)
  | [] => [[]]
  | a :: as =>
    match splitChar sep as with
    | [] => [[]]
    | r :: rs => if a = sep then [] :: r :: rs else (a :: r) :: rs

/-- The hyphen-separated fields of a manifest filename after
`os.path.splitext(zip)[0]` (app.py lines 79-83). -/
def zipFields (z : String) : List String :=
  (splitChar '-' (splitextRoot z.data)).map (fun l => ⟨l⟩)

/-- `datetime.strptime(s, '%Y%m%d')` restricted to the 8-digit shape the
filenames carry: four year digits, two month digits, two day digits, with
`datetime`'s range validation (year ≥ 1, month 1-12, day valid for the
month).  Anything else raises `ValueError`. -/
def strptime_Ymd (s : String) : Except Err (Nat × Nat × Nat) :=
  match s.data with
  | [y1, y2, y3, y4, m1, m2, d1, d2] =>
    if [y1, y2, y3, y4, m1, m2, d1, d2].all Char.isDigit then
      let y := digitsToNat [y1, y2, y3, y4]
      let m := digitsToNat [m1, m2]
      let d := digitsToNat [d1, d2]
      if 1 ≤ y ∧ 1 ≤ m ∧ m ≤ 12 ∧ 1 ≤ d ∧ d ≤ daysInMonth y m then
        .ok (y, m, d)
      else .error .valueError
    else .error .valueError
  | _ => .error .valueError

/-- Zeller's congruence for the Gregorian calendar: 0 = Saturday,
1 = Sunday, ..., 6 = Friday. -/
def zellerDay (y m d : Nat) : Nat :=
  let m' := if m ≤ 2 then m + 12 else m
  let y' := if m ≤ 2 then y - 1 else y
  let K := y' % 100
  let J := y' / 100
  (d + (13 * (m' + 1)) / 5 + K + K / 4 + J / 4 + 5 * J) % 7

/-- `%A` day names (C locale), indexed by Zeller's result. -/
def weekdayName : Nat → String
  | 0 => "Saturday"
  | 1 => "Sunday"
  | 2 => "Monday"
  | 3 => "Tuesday"
  | 4 => "Wednesday"
  | 5 => "Thursday"
  | 6 => "Friday"
  | _ => ""

/-- `%B` month names (C locale). -/
def monthName : Nat → String
  | 1 => "January"
  | 2 => "February"
  | 3 => "March"
  | 4 => "April"
  | 5 => "May"
  | 6 => "June"
  | 7 => "July"
  | 8 => "August"
  | 9 => "September"
  | 10 => "October"
  | 11 => "November"
  | 12 => "December"
  | _ => ""

/-- `%d`: zero-padded two-digit number. -/
def pad2 (n : Nat) : String := if n < 10 then "0" ++ toString n else toString n

/-- `datetime.strftime(ـ, '%A, %d %B - %Y')`. -/
def strftime_AdBY (ymd : Nat × Nat × Nat) : String :=
  weekdayName (zellerDay ymd.1 ymd.2.1 ymd.2.2) ++ ", " ++ pad2 ymd.2.2 ++
    " " ++ monthName ymd.2.1 ++ " - " ++ toString ymd.1

/-- The date-formatting step of the index route (app.py lines 87-90). -/
def format_date (s : String) : Except Err String :=
  (strptime_Ymd s).map strftime_AdBY

/-- The codename field, `zip.split('-')[3]`, totalized for specification
statements (the route itself errors when absent — see `derive_step`). -/
def field3 (z : String) : String := ((zipFields z)[3]?).getD ""

/-- The date field, `zip.split('-')[4]`, totalized. -/
def field4 (z : String) : String := ((zipFields z)[4]?).getD ""

/-- One iteration of the `for zip in zips` loop of `show_files` (app.py
lines 78-85), acting on the `(devices, build_dates)` pair: an out-of-range
field access raises `IndexError`. -/
def derive_step (st : List (String × String) × List (String × String))
    (z : String) :
    Except Err (List (String × String) × List (String × String)) :=
  match (zipFields z)[3]?, (zipFields z)[4]? with
  | some device, some build_date =>
    let devices := if hasKey st.1 device then st.1 else dictSet st.1 device device
    let build_dates :=
      match lookupD st.2 device with
      | none => dictSet st.2 device build_date
      | some cur =>
        if cur < build_date then dictSet st.2 device build_date else st.2
    .ok (devices, build_dates)
  | _, _ => .error .indexError

/-- The error-free body of `derive_step`, used to state its loop invariant. -/
def derive_pure (st : List (String × String) × List (String × String))
    (z : String) : List (String × String) × List (String × String) :=
  let device := field3 z
  let build_date := field4 z
  (if hasKey st.1 device then st.1 else dictSet st.1 device device,
   match lookupD st.2 device with
   | none => dictSet st.2 device build_date
   | some cur =>
     if cur < build_date then dictSet st.2 device build_date else st.2)

/-- `show_files()` (app.py lines 70-92): the index route.  Returns the pair
of the merged devices dict and the formatted per-device latest build dates
passed to the template. -/
def show_files (manifest : Manifest) (devicesJson : List DeviceRec) :
    Except Err (List (String × String) × List (String × String)) := do
  let zips := get_zips manifest
  let devices := get_devices devicesJson
  let st ← zips.foldlM derive_step (devices, [])
  let formatted ← st.2.mapM (fun p => (format_date p.2).map (fun s => (p.1, s)))
  pure (st.1, formatted)

/-- The Filename Deriver (spec §4.2) applied to one manifest filename: the
codename field and the reformatted date, exactly as `show_files` computes
them. -/
def derive_filename (z : String) : Except Err (String × String) :=
  match (zipFields z)[3]?, (zipFields z)[4]? with
  | some device, some build_date =>
    (format_date build_date).map (fun s => (device, s))
  | _, _ => .error .indexError

/-! ## Lemmas about filename parsing -/

theorem rfindDot_eq_none (l : List Char) (h : '.' ∉ l) : rfindDot l = none := by
  induction l with
  | nil => rfl
  | cons c cs ih =>
    have hc : ¬c = '.' := fun hh => h (by simp [hh])
    have hcs : '.' ∉ cs := fun hh => h (by simp [hh])
    simp [rfindDot, ih hcs, hc]

theorem rfindDot_append (m t : List Char) (h : '.' ∉ t) :
    rfindDot (m ++ '.' :: t) = some m.length := by
  induction m with
  | nil => simp [rfindDot, rfindDot_eq_none t h]
  | cons a m' ih => simp [rfindDot, ih]

theorem splitextRoot_append_zip (m : List Char)
    (hsome : m.any (fun c => c != '.') = true) :
    splitextRoot (m ++ '.' :: ['z', 'i', 'p']) = m := by
  have h1 : rfindDot (m ++ '.' :: ['z', 'i', 'p']) = some m.length :=
    rfindDot_append m ['z', 'i', 'p'] (by decide)
  simp only [splitextRoot, h1, List.take_left]
  rw [if_pos hsome]

theorem splitChar_ne_nil (sep : Char) (l : List Char) :
    splitChar sep l ≠ [] := by
  cases l with
  | nil => simp [splitChar]
  | cons a as =>
    simp only [splitChar]
    split
    · simp
    · split <;> simp

theorem splitChar_no_sep (sep : Char) (l : List Char) (h : sep ∉ l) :
    splitChar sep l = [l] := by
  induction l with
  | nil => rfl
  | cons a as ih =>
    have ha : ¬a = sep := fun hh => h (by simp [hh])
    have has : sep ∉ as := fun hh => h (by simp [hh])
    simp [splitChar, ih has, ha]

theorem splitChar_append (sep : Char) (l₁ l₂ : List Char) (h : sep ∉ l₁) :
    splitChar sep (l₁ ++ sep :: l₂) = l₁ :: splitChar sep l₂ := by
  induction l₁ with
  | nil =>
    simp only [List.nil_append]
    rcases hsp : splitChar sep l₂ with _ | ⟨r, rs⟩
    · exact absurd hsp (splitChar_ne_nil sep l₂)
    · simp [splitChar, hsp]
  | cons a l₁' ih =>
    have ha : ¬a = sep := fun hh => h (by simp [hh])
    have h' : sep ∉ l₁' := fun hh => h (by simp [hh])
    simp [splitChar, ih h', ha]

/-! ## Claims C7 and C8: the Filename Deriver -/

/-- The trailing fields of a filename beyond the fifth: each prefixed with
the `-` delimiter.  `dashTail []` is the empty string, so the five-field
shape is the `rest = []` case. -/
def dashTail : List String → String
  | [] => ""
  | r :: rs => "-" ++ r ++ dashTail rs

theorem splitChar_dashTail (d : String) (rest : List String)
    (hd : '-' ∉ d.data) (hrest : ∀ r ∈ rest, '-' ∉ r.data) :
    splitChar '-' (d.data ++ (dashTail rest).data) =
      d.data :: rest.map String.data := by
  induction rest generalizing d with
  | nil =>
    simp only [dashTail, List.map_nil]
    rw [List.append_nil]
    exact splitChar_no_sep '-' d.data hd
  | cons r rs ih =>
    have hdata : (dashTail (r :: rs)).data =
        '-' :: (r.data ++ (dashTail rs).data) := by
      simp [dashTail, String.data_append]
    rw [hdata]
    rw [splitChar_append '-' d.data _ hd]
    rw [ih r (hrest r (List.mem_cons_self r rs))
      (fun r' hr' => hrest r' (List.mem_cons_of_mem r hr'))]
    simp

theorem map_mk_data (l : List String) :
    (l.map String.data).map (fun x => (⟨x⟩ : String)) = l := by
  induction l with
  | nil => rfl
  | cons r rs ih =>
    simp only [List.map_cons]
    rw [ih]

/-- C7: for a well-formed manifest filename
`P-P-P-<codename>-<YYYYMMDD>[-extra]*.zip` with at least five
hyphen-delimited (hence hyphen-free) fields — `rest` being the fields
beyond the fifth — the Filename Deriver extracts exactly the 4th
hyphen-delimited field as the codename and the 5th as the build date, and
formats the date with strftime pattern `%A, %d %B - %Y`
(`Weekday, DD Month - YYYY`). -/
theorem c7_filename_deriver (p1 p2 p3 c d : String) (rest : List String)
    (y mo day : Nat)
    (hp1 : '-' ∉ p1.data) (hp2 : '-' ∉ p2.data) (hp3 : '-' ∉ p3.data)
    (hc : '-' ∉ c.data) (hd : '-' ∉ d.data)
    (hrest : ∀ r ∈ rest, '-' ∉ r.data)
    (hparse : strptime_Ymd d = .ok (y, mo, day)) :
    zipFields (p1 ++ "-" ++ p2 ++ "-" ++ p3 ++ "-" ++ c ++ "-" ++ d ++
        dashTail rest ++ ".zip")
        = [p1, p2, p3, c, d] ++ rest
    ∧ derive_filename (p1 ++ "-" ++ p2 ++ "-" ++ p3 ++ "-" ++ c ++ "-" ++ d ++
        dashTail rest ++ ".zip")
        = .ok (c, weekdayName (zellerDay y mo day) ++ ", " ++ pad2 day ++ " "
            ++ monthName mo ++ " - " ++ toString y) := by
  have hdash : ("-" : String).data = ['-'] := rfl
  have hzip : (".zip" : String).data = ['.', 'z', 'i', 'p'] := rfl
  have hM : (p1 ++ "-" ++ p2 ++ "-" ++ p3 ++ "-" ++ c ++ "-" ++ d ++
      dashTail rest ++ ".zip").data =
      (p1.data ++ '-' :: (p2.data ++ '-' :: (p3.data ++ '-' ::
        (c.data ++ '-' :: (d.data ++ (dashTail rest).data))))) ++
        '.' :: ['z', 'i', 'p'] := by
    simp [String.data_append, hdash, hzip, List.append_assoc]
  have hsplit : splitextRoot (p1 ++ "-" ++ p2 ++ "-" ++ p3 ++ "-" ++ c ++
      "-" ++ d ++ dashTail rest ++ ".zip").data =
      p1.data ++ '-' :: (p2.data ++ '-' :: (p3.data ++ '-' ::
        (c.data ++ '-' :: (d.data ++ (dashTail rest).data)))) := by
    rw [hM]
    exact splitextRoot_append_zip _ (by simp [List.any_append, List.any_cons])
  have hfields : splitChar '-'
      (p1.data ++ '-' :: (p2.data ++ '-' :: (p3.data ++ '-' ::
        (c.data ++ '-' :: (d.data ++ (dashTail rest).data))))) =
      [p1.data, p2.data, p3.data, c.data] ++
        (d.data :: rest.map String.data) := by
    rw [splitChar_append '-' p1.data _ hp1, splitChar_append '-' p2.data _ hp2,
      splitChar_append '-' p3.data _ hp3, splitChar_append '-' c.data _ hc,
      splitChar_dashTail d rest hd hrest]
    rfl
  have hzf : zipFields (p1 ++ "-" ++ p2 ++ "-" ++ p3 ++ "-" ++ c ++ "-" ++ d ++
      dashTail rest ++ ".zip") = [p1, p2, p3, c, d] ++ rest := by
    unfold zipFields
    rw [hsplit, hfields]
    simp only [List.map_append, List.map_cons, List.map_nil]
    rw [map_mk_data]
    rfl
  refine ⟨hzf, ?_⟩
  have h3 : ([p1, p2, p3, c, d] ++ rest)[3]? = some c := by simp
  have h4 : ([p1, p2, p3, c, d] ++ rest)[4]? = some d := by simp
  unfold derive_filename
  rw [hzf]
  simp only [h3, h4]
  simp [format_date, hparse, strftime_AdBY, Except.map]

/-- Witness for C7 on a concrete SIX-field filename (one field beyond the
minimum five): the codename and date are still taken from positions 3 and
4, and 2020-01-02 was a Thursday. -/
theorem c7_witness :
    zipFields "AOSiP-10-Official-bullhead-20200102-NIGHTLY.zip" =
      ["AOSiP", "10", "Official", "bullhead", "20200102", "NIGHTLY"]
    ∧ derive_filename "AOSiP-10-Official-bullhead-20200102-NIGHTLY.zip" =
      .ok ("bullhead", "Thursday, 02 January - 2020") := by
  have h := c7_filename_deriver "AOSiP" "10" "Official" "bullhead" "20200102"
    ["NIGHTLY"] 2020 1 2 (by decide) (by decide) (by decide) (by decide)
    (by decide) (by decide) rfl
  have heq : "AOSiP" ++ "-" ++ "10" ++ "-" ++ "Official" ++ "-" ++ "bullhead"
      ++ "-" ++ "20200102" ++ dashTail ["NIGHTLY"] ++ ".zip" =
      "AOSiP-10-Official-bullhead-20200102-NIGHTLY.zip" := rfl
  rw [heq] at h
  constructor
  · rw [h.1]
    rfl
  · rw [h.2]
    rfl

/-- C8: a manifest filename with fewer than 5 hyphen-delimited fields is
reachable and makes the fixed-position field access fail with an
`IndexError`: the whole index route errors instead of responding. -/
theorem c8_short_filename_index_error :
    (zipFields "AOSiP-10.zip").length < 5
    ∧ derive_filename "AOSiP-10.zip" = .error .indexError
    ∧ show_files
        [("bullhead",
          [{ filename := "AOSiP-10.zip", type := "official", version := "10",
             date := "2020-01-01", sha256 := "eee", filepath := "/bullhead/",
             size := 1 }])] demoDevices = .error .indexError :=
  ⟨by decide, rfl, rfl⟩

/-! ## Claim C6: the index route shows the maximum build date -/

/-- The date fields of all of a codename's listed build filenames. -/
def datesOf (zips : List String) (c : String) : List String :=
  (zips.filter (fun z => field3 z == c)).map field4

/-- Whether the date-formatting step succeeds on a string. -/
def fmtOk (s : String) : Bool :=
  match format_date s with
  | .ok _ => true
  | .error _ => false

/-- The formatted value, totalized (equals the `.ok` payload when
`fmtOk`). -/
def fmtVal (s : String) : String :=
  match format_date s with
  | .ok v => v
  | .error _ => ""

/-- The max-keeping update the `build_dates` loop performs per date. -/
def combine (o : Option String) (d : String) : Option String :=
  match o with
  | none => some d
  | some m => if m < d then some d else some m

theorem derive_step_eq (st : List (String × String) × List (String × String))
    (z : String) (h : 5 ≤ (zipFields z).length) :
    derive_step st z = .ok (derive_pure st z) := by
  have h3 : (zipFields z)[3]? = some (field3 z) := by
    rw [List.getElem?_eq_getElem (by omega)]
    rw [field3, List.getElem?_eq_getElem (by omega)]
    rfl
  have h4 : (zipFields z)[4]? = some (field4 z) := by
    rw [List.getElem?_eq_getElem (by omega)]
    rw [field4, List.getElem?_eq_getElem (by omega)]
    rfl
  simp only [derive_step, derive_pure, h3, h4]

theorem foldlM_derive (zips : List String)
    (st : List (String × String) × List (String × String))
    (h : ∀ z ∈ zips, 5 ≤ (zipFields z).length) :
    List.foldlM derive_step st zips = .ok (zips.foldl derive_pure st) := by
  induction zips generalizing st with
  | nil => rfl
  | cons z zs ih =>
    rw [List.foldlM_cons, derive_step_eq st z (h z (by simp)), exceptBind_ok]
    exact ih (derive_pure st z) (fun z' hz' => h z' (by simp [hz']))

theorem lookupD_derive_pure_dates
    (st : List (String × String) × List (String × String)) (z : String)
    (c : String) :
    lookupD (derive_pure st z).2 c =
      if field3 z == c then combine (lookupD st.2 c) (field4 z)
      else lookupD st.2 c := by
  by_cases hz : field3 z = c
  · subst hz
    simp only [beq_self_eq_true, if_true, derive_pure, combine]
    cases hcur : lookupD st.2 (field3 z) with
    | none => simp [lookupD_dictSet_self]
    | some cur =>
      by_cases hlt : cur < field4 z
      · simp [hlt, lookupD_dictSet_self]
      · simp [hlt, hcur]
  · have hz' : (field3 z == c) = false := by simpa using hz
    simp only [hz', Bool.false_eq_true, if_false, derive_pure]
    cases hcur : lookupD st.2 (field3 z) with
    | none => exact lookupD_dictSet_ne _ _ _ _ (fun hh => hz hh.symm)
    | some cur =>
      by_cases hlt : cur < field4 z
      · simp only [hlt, if_true]
        exact lookupD_dictSet_ne _ _ _ _ (fun hh => hz hh.symm)
      · simp [hlt]

theorem foldl_derive_dates (zips : List String)
    (st : List (String × String) × List (String × String)) (c : String) :
    lookupD (zips.foldl derive_pure st).2 c =
      (datesOf zips c).foldl combine (lookupD st.2 c) := by
  induction zips generalizing st with
  | nil => rfl
  | cons z zs ih =>
    rw [List.foldl_cons, ih]
    by_cases hz : field3 z = c
    · have hz' : (field3 z == c) = true := by simpa using hz
      rw [show datesOf (z :: zs) c = field4 z :: datesOf zs c from by
        simp [datesOf, List.filter_cons, hz']]
      rw [List.foldl_cons]
      rw [lookupD_derive_pure_dates st z c, hz', if_pos rfl]
    · have hz' : (field3 z == c) = false := by simpa using hz
      rw [show datesOf (z :: zs) c = datesOf zs c from by
        simp [datesOf, List.filter_cons, hz']]
      rw [lookupD_derive_pure_dates st z c, hz']
      simp

theorem foldl_combine_spec (ds : List String) (o : Option String) (m : String)
    (h : ds.foldl combine o = some m) :
    (m ∈ ds ∨ o = some m) ∧ (∀ d ∈ ds, d ≤ m) ∧
      (∀ x, o = some x → x ≤ m) := by
  induction ds generalizing o with
  | nil =>
    refine ⟨Or.inr h, by simp, fun x hx => ?_⟩
    rw [hx] at h
    cases h
    exact le_refl m
  | cons d ds ih =>
    rw [List.foldl_cons] at h
    obtain ⟨h1, h2, h3⟩ := ih (combine o d) h
    have hd_le : d ≤ m := by
      cases o with
      | none => exact h3 d rfl
      | some x =>
        by_cases hxd : x < d
        · exact h3 d (by simp [combine, hxd])
        · exact le_trans (le_of_not_lt hxd) (h3 x (by simp [combine, hxd]))
    refine ⟨?_, ?_, ?_⟩
    · rcases h1 with hm | hm
      · exact Or.inl (by simp [hm])
      · cases o with
        | none =>
          simp only [combine] at hm
          cases hm
          exact Or.inl (by simp)
        | some x =>
          by_cases hxd : x < d
          · simp only [combine, hxd, if_true] at hm
            cases hm
            exact Or.inl (by simp)
          · simp only [combine, hxd, if_false] at hm
            exact Or.inr hm
    · intro d' hd'
      rcases List.mem_cons.mp hd' with hh | hh
      · subst hh; exact hd_le
      · exact h2 d' hh
    · intro x hx
      subst hx
      by_cases hxd : x < d
      · exact le_trans (le_of_lt hxd) (h3 d (by simp [combine, hxd]))
      · exact h3 x (by simp [combine, hxd])

theorem foldl_combine_some (ds : List String) (x : String) :
    ∃ m, ds.foldl combine (some x) = some m := by
  induction ds generalizing x with
  | nil => exact ⟨x, rfl⟩
  | cons d ds ih =>
    rw [List.foldl_cons]
    by_cases hxd : x < d
    · simpa [combine, hxd] using ih d
    · simpa [combine, hxd] using ih x

theorem mem_values_dictSet (l : List (String × String)) (k v : String)
    (q : String × String) (h : q ∈ dictSet l k v) :
    q.2 ∈ l.map (fun p => p.2) ∨ q.2 = v := by
  induction l with
  | nil =>
    simp only [dictSet, List.mem_singleton] at h
    subst h
    exact Or.inr rfl
  | cons p t ih =>
    by_cases hp : p.1 == k
    · simp only [dictSet, hp, if_true, List.mem_cons] at h
      rcases h with h | h
      · subst h; exact Or.inr rfl
      · exact Or.inl
          (List.mem_map_of_mem (fun r => r.2) (List.mem_cons_of_mem p h))
    · have hp' : (p.1 == k) = false := by simpa using hp
      simp only [dictSet, hp', Bool.false_eq_true, if_false,
        List.mem_cons] at h
      rcases h with h | h
      · subst h
        exact Or.inl (List.mem_map_of_mem (fun r => r.2) (List.mem_cons_self q t))
      · rcases ih h with hh | hh
        · refine Or.inl ?_
          rw [List.map_cons]
          exact List.mem_cons_of_mem _ hh
        · exact Or.inr hh

theorem foldl_derive_values (zips : List String)
    (st : List (String × String) × List (String × String))
    (p : String × String) (hp : p ∈ (zips.foldl derive_pure st).2) :
    p.2 ∈ st.2.map (fun q => q.2) ++ zips.map field4 := by
  induction zips generalizing st with
  | nil => simpa using List.mem_map_of_mem (fun q => q.2) hp
  | cons z zs ih =>
    have hmem := ih (derive_pure st z) hp
    rw [List.mem_append] at hmem
    rcases hmem with hmem | hmem
    · -- p.2 is a value of (derive_pure st z).2: a value of st.2 or field4 z
      rw [List.mem_map] at hmem
      obtain ⟨q, hq, hqv⟩ := hmem
      have hsub : q.2 ∈ st.2.map (fun r => r.2) ∨ q.2 = field4 z := by
        simp only [derive_pure] at hq
        rcases hcur : lookupD st.2 (field3 z) with _ | cur
        · simp only [hcur] at hq
          exact mem_values_dictSet _ _ _ q hq
        · simp only [hcur] at hq
          by_cases hlt : cur < field4 z
          · rw [if_pos hlt] at hq
            exact mem_values_dictSet _ _ _ q hq
          · rw [if_neg hlt] at hq
            exact Or.inl (List.mem_map_of_mem (fun r => r.2) hq)
      rw [← hqv]
      rcases hsub with hh | hh
      · exact List.mem_append.mpr (Or.inl hh)
      · exact List.mem_append.mpr (Or.inr (by simp [hh]))
    · refine List.mem_append.mpr (Or.inr ?_)
      rw [List.map_cons]
      exact List.mem_cons_of_mem _ hmem

theorem mapM_format (bd : List (String × String))
    (h : ∀ p ∈ bd, fmtOk p.2 = true) :
    bd.mapM (fun p => (format_date p.2).map (fun s => (p.1, s))) =
      .ok (bd.map (fun p => (p.1, fmtVal p.2))) := by
  induction bd with
  | nil => rfl
  | cons p t ih =>
    obtain ⟨v, hv⟩ : ∃ v, format_date p.2 = .ok v := by
      have := h p (by simp)
      unfold fmtOk at this
      rcases hf : format_date p.2 with e | v
      · rw [hf] at this; simp at this
      · exact ⟨v, rfl⟩
    rw [List.mapM_cons, hv]
    rw [ih (fun q hq => h q (by simp [hq]))]
    have hval : fmtVal p.2 = v := by unfold fmtVal; rw [hv]
    simp [Except.map, exceptBind_ok, exceptPure, hval]

theorem lookupD_map_values (l : List (String × String)) (f : String → String)
    (c : String) :
    lookupD (l.map (fun p => (p.1, f p.2))) c = (lookupD l c).map f := by
  induction l with
  | nil => rfl
  | cons p t ih =>
    cases hp : p.1 == c
    · simpa [lookupD, List.find?_cons, hp] using ih
    · simp [lookupD, List.find?_cons, hp]

/-- C6: for every codename appearing in well-formed manifest filenames, the
index route displays, as that codename's latest build date, the
lexicographically greatest date string (field at index 4 after splitting on
`-`) among ALL of that codename's listed build filenames — the maximum over
the whole list, regardless of manifest order. -/
theorem c6_index_shows_max_date (manifest : Manifest)
    (devicesJson : List DeviceRec) (c : String)
    (hwf : ∀ z ∈ get_zips manifest, 5 ≤ (zipFields z).length)
    (hfmt : ∀ z ∈ get_zips manifest, fmtOk (field4 z) = true)
    (hc : ∃ z ∈ get_zips manifest, field3 z = c) :
    ∃ dv fm m s,
      show_files manifest devicesJson = .ok (dv, fm)
      ∧ m ∈ datesOf (get_zips manifest) c
      ∧ (∀ d ∈ datesOf (get_zips manifest) c, d ≤ m)
      ∧ format_date m = .ok s
      ∧ lookupD fm c = some s := by
  have hfold := foldlM_derive (get_zips manifest)
    (get_devices devicesJson, []) hwf
  have hlook : lookupD ((get_zips manifest).foldl derive_pure
      (get_devices devicesJson, [])).2 c =
      (datesOf (get_zips manifest) c).foldl combine none := by
    rw [foldl_derive_dates]
    rfl
  obtain ⟨m, hm⟩ : ∃ m,
      (datesOf (get_zips manifest) c).foldl combine none = some m := by
    obtain ⟨z, hz, hz3⟩ := hc
    have hzf : z ∈ (get_zips manifest).filter (fun z => field3 z == c) :=
      List.mem_filter.mpr ⟨hz, by simpa using hz3⟩
    rcases hd : datesOf (get_zips manifest) c with _ | ⟨d, ds⟩
    · have : field4 z ∈ datesOf (get_zips manifest) c :=
        List.mem_map_of_mem field4 hzf
      rw [hd] at this
      simp at this
    · rw [List.foldl_cons]
      simpa [combine] using foldl_combine_some ds d
  have hspec := foldl_combine_spec _ _ _ hm
  have hmem : m ∈ datesOf (get_zips manifest) c := by
    rcases hspec.1 with hh | hh
    · exact hh
    · simp at hh
  obtain ⟨s, hs⟩ : ∃ s, format_date m = .ok s := by
    obtain ⟨z, hz, hz4⟩ := List.mem_map.mp hmem
    have hzz : z ∈ get_zips manifest := (List.mem_filter.mp hz).1
    have := hfmt z hzz
    rw [hz4] at this
    unfold fmtOk at this
    rcases hf : format_date m with e | v
    · rw [hf] at this; simp at this
    · exact ⟨v, rfl⟩
  have hvals : ∀ p ∈ ((get_zips manifest).foldl derive_pure
      (get_devices devicesJson, [])).2, fmtOk p.2 = true := by
    intro p hp
    have := foldl_derive_values (get_zips manifest)
      (get_devices devicesJson, []) p hp
    simp only [List.map_nil, List.nil_append] at this
    obtain ⟨z, hz, hz4⟩ := List.mem_map.mp this
    rw [← hz4]
    exact hfmt z hz
  have hmapM := mapM_format _ hvals
  refine ⟨((get_zips manifest).foldl derive_pure
      (get_devices devicesJson, [])).1,
    ((get_zips manifest).foldl derive_pure
      (get_devices devicesJson, [])).2.map (fun p => (p.1, fmtVal p.2)),
    m, s, ?_, hmem, hspec.2.1, hs, ?_⟩
  · rw [show_files]
    simp only [hfold, exceptBind_ok]
    simp only [hmapM, exceptBind_ok]
    rfl
  · rw [lookupD_map_values, hlook, hm]
    have : fmtVal m = s := by unfold fmtVal; rw [hs]
    simp [this]

/-- The manifest used by the C6 witness: the 2020-03-01 build is listed
FIRST, so manifest order alone would pick 20200301 anyway — a second
codename with reversed order pins down the max-selection. -/
def demoIndexManifest : Manifest :=
  [("bullhead",
    [{ filename := "AOSiP-10-Official-bullhead-20200102.zip",
       type := "official", version := "10", date := "2020-01-02",
       sha256 := "f1", filepath := "/bullhead/", size := 1 },
     { filename := "AOSiP-10-Official-bullhead-20200301.zip",
       type := "official", version := "10", date := "2020-03-01",
       sha256 := "f2", filepath := "/bullhead/", size := 2 },
     { filename := "AOSiP-10-Gapps-bullhead-20200215.zip",
       type := "gapps", version := "10", date := "2020-02-15",
       sha256 := "f3", filepath := "/bullhead/", size := 3 }])]

/-- Witness for C6: on the demo manifest the maximum date 20200301 is
selected for `bullhead` even though a later-listed filename carries an
earlier date. -/
theorem c6_witness :
    ∃ dv fm m s,
      show_files demoIndexManifest demoDevices = .ok (dv, fm)
      ∧ m ∈ datesOf (get_zips demoIndexManifest) "bullhead"
      ∧ (∀ d ∈ datesOf (get_zips demoIndexManifest) "bullhead", d ≤ m)
      ∧ format_date m = .ok s
      ∧ lookupD fm "bullhead" = some s :=
  c6_index_shows_max_date demoIndexManifest demoDevices "bullhead"
    (by decide) (by decide) (by decide)

end BuildCatalog
